import Mathlib

/-!
Verification of the filtered tabular data access layer of gsheet-bun:
the predicate engine (`src/sheets/filters.ts`), the read-through cache
with single-flight coalescing, and the write coordinator
(`src/sheets/service.ts`).

The JavaScript dynamic values reachable from JSON request bodies and
from the backend's string grid are embedded as the inductive `Value`
(JSON scalars, arrays, objects, plus `undefined`). JS numbers are
modelled as rationals (`Rat`): the inputs in play are finite decimals,
for which IEEE binary floating point agrees with exact rational
arithmetic on the comparisons performed here; the two infinities the
`Infinity` literal can contribute are carried by `JsNum`. Two host
builtins used by the source are modelled explicitly: `parseFloat` by
`parseFloatM` (ECMA-262 fully specifies it) and `new Date(string)` by
`parseDateM` on the date-only forms of the ECMA Date Time String
Format, encoding the instant ordinally — beyond those mandated forms
`Date` parsing is implementation-defined, so theorems about coercion
either exhibit a mandated-format date or restrict to pairs with a
non-string side, which the source's `typeof` dispatch decides without
consulting the host parser. `Date` objects never
occur as inputs (they cannot arrive via JSON or the value grid), so
every `Date` the code compares was freshly constructed by `toDateTime`,
and JS strict equality (`===`) between two such objects is reference
inequality: `strictEq` on the `date` scalar kind is therefore `false`.

Exceptions (a thrown `TypeError`, the explicit range/empty-sheet
throws) are embedded as `Except String`.
-/

namespace GsheetBun

/-- A JavaScript value reachable from a JSON body or from the sheet's
value grid: JSON scalars, arrays and objects, plus `undefined`. -/
inductive Value where
  | null : Value
  | undef : Value
  | bool : Bool → Value
  | num : Rat → Value
  | str : String → Value
  | arr : List Value → Value
  | obj : List (String × Value) → Value

/-- A normalized row record (`RowDict`): property name to value, in
assignment order. JS property assignment overwrites, so lookup takes the
last binding of a key. -/
abbrev Row := List (String × Value)

/-- Property lookup on an assignment list: the last binding wins
(JS assignment overwrites earlier ones); a missing key reads as
`undefined`. -/
def getKV (kvs : List (String × Value)) (k : String) : Value :=
  match kvs.reverse.find? (fun p => p.1 == k) with
  | some p => p.2
  | none => Value.undef

/-- JS property access `v[k]` for the shapes that occur here: objects
look up the key, anything else yields `undefined`. -/
def getProp (v : Value) (k : String) : Value :=
  match v with
  | .obj kvs => getKV kvs k
  | _ => Value.undef

/-- JS truthiness of a `Value` (`NaN` cannot occur: `num` is exact). -/
def jsTruthy : Value → Bool
  | .null => false
  | .undef => false
  | .bool b => b
  | .num q => decide (q ≠ 0)
  | .str s => decide (s ≠ "")
  | .arr _ => true
  | .obj _ => true

/-- `typeof v === "object"` (true for objects, arrays and `null`). -/
def typeofObject : Value → Bool
  | .null => true
  | .arr _ => true
  | .obj _ => true
  | _ => false

/-- Decimal rendering of a rational, used to model JS `ToString` on
numbers. Exact for integers; non-integers render with up to ten
fractional digits (every concrete number compared by string in this
development is an integer, where this matches JS exactly). -/
def ratToString (q : Rat) : String :=
  if q.den = 1 then toString q.num
  else
    let sign := if q < 0 then "-" else ""
    let a : Rat := |q|
    let ip : Int := a.floor
    let fracDigits : Nat → Rat → List Char → List Char := fun fuel =>
      Nat.rec (motive := fun _ => Rat → List Char → List Char)
        (fun _ acc => acc.reverse)
        (fun _ rec f acc =>
          if f = 0 then acc.reverse
          else
            let f10 := f * 10
            let d : Int := f10.floor
            rec (f10 - d) (Char.ofNat (48 + d.toNat) :: acc))
        fuel
    let frac := fracDigits 10 (a - (ip : Rat)) []
    sign ++ toString ip ++ "." ++ String.mk frac

mutual

/-- JS `String(v)` for the embedded values: `"null"`, `"undefined"`,
boolean words, decimal numbers, the string itself, arrays joined by
commas (with `null`/`undefined` elements rendered empty, as
`Array.prototype.join` does) and `"[object Object]"` for objects. -/
def jsString : Value → String
  | .null => "null"
  | .undef => "undefined"
  | .bool b => if b then "true" else "false"
  | .num q => ratToString q
  | .str s => s
  | .arr l => String.intercalate "," (jsArrElems l)
  | .obj _ => "[object Object]"

/-- Elements of an array as `Array.prototype.join` renders them:
`null` and `undefined` become the empty string. -/
def jsArrElems : List Value → List String
  | [] => []
  | .null :: vs => "" :: jsArrElems vs
  | .undef :: vs => "" :: jsArrElems vs
  | v :: vs => jsString v :: jsArrElems vs

end

/-- Model of JS `String.prototype.trim`: strip whitespace from both
ends (written on the character list so that it computes by kernel
reduction). -/
def jsTrim (s : String) : String :=
  String.mk (((s.data.dropWhile Char.isWhitespace).reverse.dropWhile
    Char.isWhitespace).reverse)

/-- Model of JS `String.prototype.toLowerCase` on the ASCII range (the
only characters the canonical boolean words and operator names use). -/
def asciiLower (s : String) : String :=
  String.mk (s.data.map Char.toLower)

/-- Whether `pre` is an initial run of `l`. -/
def leadsWith : List Char → List Char → Bool
  | [], _ => true
  | _ :: _, [] => false
  | c :: cs, d :: ds => c == d && leadsWith cs ds

/-- Whether `needle` occurs contiguously inside `hay`. -/
def findSub (hay needle : List Char) : Bool :=
  leadsWith needle hay ||
    match hay with
    | [] => false
    | _ :: t => findSub t needle

/-- `FiltersService.isNullish`: `null`, `undefined` or the empty string. -/
def isNullish : Value → Bool
  | .null => true
  | .undef => true
  | .str s => decide (s = "")
  | _ => false

/-- `FiltersService.toBool`: booleans pass through, numbers coerce by
`Boolean(value)`, strings match the canonical true/false words
(trimmed, case-insensitive); everything else yields no boolean. -/
def toBool : Value → Option Bool
  | .bool b => some b
  | .num q => some (decide (q ≠ 0))
  | .str s =>
    let t := asciiLower (jsTrim s)
    if t = "true" ∨ t = "t" ∨ t = "yes" ∨ t = "y" ∨ t = "1" then some true
    else if t = "false" ∨ t = "f" ∨ t = "no" ∨ t = "n" ∨ t = "0" then some false
    else none
  | _ => none

/-- Numeric value of a digit list, most significant first. -/
def digitsVal (ds : List Char) : Nat :=
  ds.foldl (fun a c => a * 10 + (c.toNat - 48)) 0

/-- A JavaScript number as `parseFloat` can produce it: a finite value
(exact, see the module comment) or one of the two infinities that the
`Infinity` literal yields. `NaN` needs no constructor: the coercions
map it to "no number" (`none`). -/
inductive JsNum where
  | fin : Rat → JsNum
  | posInf : JsNum
  | negInf : JsNum
deriving DecidableEq

/-- JS `<` on numbers (no `NaN` can reach a comparison: `toNumber`
returns `none` instead of `NaN`). -/
def jsNumLt : JsNum → JsNum → Bool
  | .fin a, .fin b => decide (a < b)
  | .fin _, .posInf => true
  | .fin _, .negInf => false
  | .posInf, _ => false
  | .negInf, .negInf => false
  | .negInf, _ => true

/-- JS `===` on numbers produced by the coercions (no `NaN`). -/
def jsNumEq : JsNum → JsNum → Bool
  | .fin a, .fin b => decide (a = b)
  | .posInf, .posInf => true
  | .negInf, .negInf => true
  | _, _ => false

/-- Model of the host `parseFloat` (ECMA-262 `parseFloat`, which is
fully specified: the longest prefix of the trimmed input matching
*StrDecimalLiteral* — optional sign, then the `Infinity` literal or
decimal digits with an optional fractional part and an optional
exponent — ignoring any trailing characters; no such prefix means no
number). Leading-whitespace stripping covers the ASCII whitespace
characters; every string this development evaluates concretely uses
only those. -/
def parseFloatM (s : String) : Option JsNum :=
  let cs := s.data.dropWhile Char.isWhitespace
  let signAndRest : Int × List Char :=
    match cs with
    | '-' :: t => (-1, t)
    | '+' :: t => (1, t)
    | t => (1, t)
  let sign := signAndRest.1
  let cs1 := signAndRest.2
  let intDigits := cs1.takeWhile Char.isDigit
  let cs2 := cs1.drop intDigits.length
  let fracAndRest : List Char × List Char :=
    match cs2 with
    | '.' :: t => (t.takeWhile Char.isDigit, t.drop (t.takeWhile Char.isDigit).length)
    | t => ([], t)
  let fracDigits := fracAndRest.1
  let cs3 := fracAndRest.2
  if leadsWith "Infinity".data cs1 then
    some (if sign < 0 then JsNum.negInf else JsNum.posInf)
  else if intDigits.isEmpty ∧ fracDigits.isEmpty then none
  else
    let mantissa : Rat :=
      (digitsVal intDigits : Rat) + (digitsVal fracDigits : Rat) / ((10 : Rat) ^ fracDigits.length)
    let expVal : Int :=
      match cs3 with
      | c :: t =>
        if c = 'e' ∨ c = 'E' then
          let esignAndRest : Int × List Char :=
            match t with
            | '-' :: u => (-1, u)
            | '+' :: u => (1, u)
            | u => (1, u)
          let eds := esignAndRest.2.takeWhile Char.isDigit
          if eds.isEmpty then 0 else esignAndRest.1 * (digitsVal eds : Int)
        else 0
      | [] => 0
    let scaled : Rat :=
      if expVal ≥ 0 then sign * mantissa * (10 : Rat) ^ expVal.toNat
      else sign * mantissa / (10 : Rat) ^ (-expVal).toNat
    some (JsNum.fin scaled)

/-- `FiltersService.toNumber`: numbers pass through, strings go through
`parseFloat` after trimming; everything else yields no number. -/
def toNumber : Value → Option JsNum
  | .num q => some (JsNum.fin q)
  | .str s => parseFloatM (jsTrim s)
  | _ => none

/-- Days of a month of the proleptic Gregorian calendar, with the
ECMA leap-year rule. -/
def daysInMonth (y m : Nat) : Nat :=
  if m = 2 then
    if (y % 4 = 0 ∧ y % 100 ≠ 0) ∨ y % 400 = 0 then 29 else 28
  else if m = 4 ∨ m = 6 ∨ m = 9 ∨ m = 11 then 30 else 31

/-- The ordinal encoding of a calendar date: lexicographic
(year, month, day) order, which coincides with the epoch ordering JS
`Date` comparison uses, and with equality of instants (all date-only
forms denote UTC midnight). -/
def dateOrd (y m d : Nat) : Int :=
  (y : Int) * 10000 + (m : Int) * 100 + (d : Int)

/-- Model of the host `new Date(string)` on the **date-only** forms of
the ECMA-262 Date Time String Format, which every conforming engine
must accept: `YYYY`, `YYYY-MM` and `YYYY-MM-DD` (absent month and day
default to `01`; all three denote UTC midnight), with out-of-range
month or calendar day rejected. Time-suffixed conforming forms and the
host's implementation-specific heuristic formats are outside the
model; no theorem of this development relies on this parser
*rejecting* a string (theorems about coercion either exhibit a
mandated-format date, or restrict to pairs with a non-string side,
where the source's `typeof` dispatch disables datetime coercion
regardless of the host parser). -/
def parseDateM (s : String) : Option Int :=
  match s.data with
  | [y1, y2, y3, y4] =>
    if y1.isDigit ∧ y2.isDigit ∧ y3.isDigit ∧ y4.isDigit then
      some (dateOrd (digitsVal [y1, y2, y3, y4]) 1 1)
    else none
  | [y1, y2, y3, y4, '-', m1, m2] =>
    if y1.isDigit ∧ y2.isDigit ∧ y3.isDigit ∧ y4.isDigit ∧ m1.isDigit ∧ m2.isDigit then
      let m := digitsVal [m1, m2]
      if 1 ≤ m ∧ m ≤ 12 then some (dateOrd (digitsVal [y1, y2, y3, y4]) m 1) else none
    else none
  | [y1, y2, y3, y4, '-', m1, m2, '-', d1, d2] =>
    if y1.isDigit ∧ y2.isDigit ∧ y3.isDigit ∧ y4.isDigit ∧
        m1.isDigit ∧ m2.isDigit ∧ d1.isDigit ∧ d2.isDigit then
      let y := digitsVal [y1, y2, y3, y4]
      let m := digitsVal [m1, m2]
      let d := digitsVal [d1, d2]
      if 1 ≤ m ∧ m ≤ 12 ∧ 1 ≤ d ∧ d ≤ daysInMonth y m then
        some (dateOrd y m d)
      else none
    else none
  | _ => none

/-- `FiltersService.toDateTime`: only strings can produce a date here
(the `value instanceof Date` branch is dead: no input `Value` is a
`Date` object, JSON bodies and the value grid cannot carry one). -/
def toDateTime : Value → Option Int
  | .str s => parseDateM s
  | _ => none

/-- Whether a value is a JS string. For a non-string (and non-`Date`,
which no input `Value` can be) the source's `toDateTime` returns
`null` by its `typeof` dispatch alone, independently of how the host
parses date strings. -/
def isStr : Value → Bool
  | .str _ => true
  | _ => false

/-- The coerced scalar type (`Scalar` in filters.ts): what `coercePair`
produces for the comparison operators. -/
inductive Scalar where
  | null : Scalar
  | bool : Bool → Scalar
  | num : JsNum → Scalar
  | str : String → Scalar
  | date : Int → Scalar

/-- JS strict equality `===` on a coerced pair. Within a kind this is
structural equality, except for dates: `coercePair` builds fresh `Date`
objects (inputs are never `Date`s), so `===` between them is reference
inequality, hence `false`. -/
def strictEq : Scalar → Scalar → Bool
  | .null, .null => true
  | .bool a, .bool b => a == b
  | .num a, .num b => jsNumEq a b
  | .str a, .str b => a == b
  | .date _, .date _ => false
  | _, _ => false

/-- JS `<` on a coerced pair of the same kind: numeric order on
numbers, lexicographic code-unit order on strings, epoch order on
dates, `ToNumber` order on booleans (reachable only through `between`,
since `compare` guards the ordering operators by kind). -/
def scalarLt : Scalar → Scalar → Bool
  | .num a, .num b => jsNumLt a b
  | .str a, .str b => decide (a < b)
  | .date a, .date b => decide (a < b)
  | .bool a, .bool b => !a && b
  | _, _ => false

/-- JS `<=` on a coerced pair of the same kind (total within a kind,
so `a <= b` is the negation of `b < a`). -/
def scalarLe : Scalar → Scalar → Bool
  | .num a, .num b => !(jsNumLt b a)
  | .str a, .str b => !(decide (b < a))
  | .date a, .date b => decide (a ≤ b)
  | .bool a, .bool b => !(a && !b)
  | _, _ => false

/-- Whether a coerced scalar is the `null` scalar. -/
def scalarIsNull : Scalar → Bool
  | .null => true
  | _ => false

/-- The string a value contributes to the string-kind fallback of
`coercePair`: `lhs === null ? "" : String(lhs)` (note: only `null`
becomes empty; `undefined` renders as `"undefined"`). -/
def coerceString : Value → String
  | .null => ""
  | v => jsString v

/-- `FiltersService.coercePair`: first rule both sides satisfy wins —
both nullish, both datetimes, both numbers, both canonical booleans,
else the string fallback. Returns the coerced pair and the kind tag. -/
def coercePair (lhs rhs : Value) : Scalar × Scalar × String :=
  if isNullish lhs ∧ isNullish rhs then (.null, .null, "null")
  else
    match toDateTime lhs, toDateTime rhs with
    | some l, some r => (.date l, .date r, "datetime")
    | _, _ =>
      match toNumber lhs, toNumber rhs with
      | some l, some r => (.num l, .num r, "number")
      | _, _ =>
        match toBool lhs, toBool rhs with
        | some l, some r => (.bool l, .bool r, "bool")
        | _, _ => (.str (coerceString lhs), .str (coerceString rhs), "string")

/-- `FiltersService.compare`: coerce the pair, settle equality
operators on null-involving pairs by both-null identity, refuse
ordering on null or boolean kinds, otherwise use the native order of
the coerced kind; an unknown operator is `false`. -/
def compare (lhs rhs : Value) (op : String) : Bool :=
  let c := coercePair lhs rhs
  let a := c.1
  let b := c.2.1
  let kind := c.2.2
  let isEqualityOp := op == "eq" || op == "ne"
  if scalarIsNull a || scalarIsNull b then
    if isEqualityOp then
      if op == "eq" then strictEq a b else !(strictEq a b)
    else false
  else
    match op with
    | "eq" => strictEq a b
    | "ne" => !(strictEq a b)
    | "gt" => decide (kind ≠ "bool") && scalarLt b a
    | "gte" => decide (kind ≠ "bool") && scalarLe b a
    | "lt" => decide (kind ≠ "bool") && scalarLt a b
    | "lte" => decide (kind ≠ "bool") && scalarLe a b
    | _ => false

/-- Case-insensitive substring test, modelling
`String(cell).toLowerCase().includes(...)`: the empty pattern is always
contained; otherwise containment shows up as `splitOn` producing more
than one piece. -/
def jsIncludes (s t : String) : Bool :=
  findSub s.data t.data

/-- `FiltersService.like`: false on a nullish side, else
case-folded substring containment. -/
def like (cell pattern : Value) : Bool :=
  if isNullish cell || isNullish pattern then false
  else jsIncludes (asciiLower (jsString cell)) (asciiLower (jsString pattern))

/-- `FiltersService.between`: coerce `(cell, low)` and `(cell, high)`
independently; both coercions must avoid the null scalar and agree on
kind; then `cell ≥ low` and `cell ≤ high` under that kind. -/
def between (cell low high : Value) : Bool :=
  let c1 := coercePair cell low
  let c2 := coercePair cell high
  if scalarIsNull c1.1 || scalarIsNull c1.2.1 || scalarIsNull c2.1 ||
      scalarIsNull c2.2.1 || decide (c1.2.2 ≠ c2.2.2) then false
  else scalarLe c1.2.1 c1.1 && scalarLe c2.1 c2.2.1

/-- `FiltersService.inList`, with the call site's dynamic reality made
explicit: `options.some(...)` requires an array; on any non-array the
JS call raises `TypeError: options.some is not a function`, embedded
here as `Except.error`. -/
def inListE (cell optsV : Value) : Except String Bool :=
  match optsV with
  | .arr opts => Except.ok (opts.any (fun o => compare cell o "eq"))
  | _ => Except.error "options.some is not a function"

/-- The effective operator of a condition object: the destructuring
default `"eq"` applies only when `operator` is absent (`undefined`),
then `String(operator).toLowerCase()`. -/
def effOp (cond : Value) : String :=
  asciiLower (jsString (match getProp cond "operator" with
    | .undef => Value.str "eq"
    | v => v))

/-- The pair payload of a `between` condition: `values || value`. -/
def betweenPair (cond : Value) : Value :=
  if jsTruthy (getProp cond "values") then getProp cond "values"
  else getProp cond "value"

/-- The options payload of an `in`/`not_in` condition:
`values || (Array.isArray(value) ? value : [value])`. -/
def inOpts (cond : Value) : Value :=
  if jsTruthy (getProp cond "values") then getProp cond "values"
  else
    match getProp cond "value" with
    | .arr l => Value.arr l
    | v => Value.arr [v]

/-- `FiltersService.matchCondition`: a non-object or falsy condition,
or one with a falsy `field`, never matches; the operator dispatches to
the null tests, `like`, `between` (requiring an array pair of length at
least two), `in`/`not_in` (which can raise, see `inListE`), and by
default to the relational comparator. -/
def matchCondition (row : Row) (cond : Value) : Except String Bool :=
  if !jsTruthy cond || !typeofObject cond then Except.ok false
  else
    let fieldV := getProp cond "field"
    if !jsTruthy fieldV then Except.ok false
    else
      let cell := getKV row (jsString fieldV)
      let op := effOp cond
      match op with
      | "is_null" => Except.ok (isNullish cell)
      | "is_not_null" => Except.ok (!isNullish cell)
      | "like" => Except.ok (like cell (getProp cond "value"))
      | "between" =>
        match betweenPair cond with
        | .arr pair =>
          if pair.length ≥ 2 then
            Except.ok (between cell (pair.getD 0 Value.undef) (pair.getD 1 Value.undef))
          else Except.ok false
        | _ => Except.ok false
      | "in" => inListE cell (inOpts cond)
      | "not_in" =>
        match inListE cell (inOpts cond) with
        | Except.ok r => Except.ok (!r)
        | Except.error e => Except.error e
      | _ => Except.ok (compare cell (getProp cond "value") op)

/-- `asArray`: falsy input becomes the empty list, an array stays
itself, anything else is wrapped as a singleton. -/
def asArray (v : Value) : List Value :=
  if !jsTruthy v then []
  else
    match v with
    | .arr l => l
    | v' => [v']

/-- `Array.prototype.every` over the fallible condition matcher:
stops at the first `false` and propagates the first exception. -/
def allE (f : Value → Except String Bool) : List Value → Except String Bool
  | [] => Except.ok true
  | a :: as_ =>
    match f a with
    | Except.error e => Except.error e
    | Except.ok b => if b then allE f as_ else Except.ok false

/-- `Array.prototype.some` over the fallible condition matcher:
stops at the first `true` and propagates the first exception. -/
def anyE (f : Value → Except String Bool) : List Value → Except String Bool
  | [] => Except.ok false
  | a :: as_ =>
    match f a with
    | Except.error e => Except.error e
    | Except.ok b => if b then Except.ok true else anyE f as_

/-- The where-tree `buildPredicate` actually consults:
`payload?.where || payload`. -/
def whereOf (payload : Value) : Value :=
  if jsTruthy (getProp payload "where") then getProp payload "where" else payload

/-- The normalized `and` group of the consulted where-tree. -/
def andConds (payload : Value) : List Value :=
  asArray (getProp (whereOf payload) "and")

/-- The normalized `or` group of the consulted where-tree. -/
def orConds (payload : Value) : List Value :=
  asArray (getProp (whereOf payload) "or")

/-- The predicate `FiltersService.buildPredicate` compiles, applied to
a row. A falsy or non-object tree is constantly true; otherwise the
`and` group is conjoined, the `or` group disjoined (an empty `or`
group counting as true), and the two combined exactly as the source
does: both present means `andOk || orOk`, one present means that group
alone, neither present means the (vacuously true) `orOk`. -/
def evalPredicate (payload : Value) (row : Row) : Except String Bool :=
  let w := whereOf payload
  if !jsTruthy w || !typeofObject w then Except.ok true
  else
    let ands := andConds payload
    let ors := orConds payload
    match (if ands.length > 0 then allE (matchCondition row) ands else Except.ok true) with
    | Except.error e => Except.error e
    | Except.ok andOk =>
      match (if ors.length > 0 then anyE (matchCondition row) ors else Except.ok (ors.length == 0)) with
      | Except.error e => Except.error e
      | Except.ok orOk =>
        Except.ok
          (if ands.length > 0 && ors.length > 0 then andOk || orOk
           else if ands.length > 0 then andOk else orOk)

/-! ## GoogleSheetsService: cache manager and read path

`readCache` and `inflightReads` are JS `Map`s; a `Map` iterates in
insertion order and `set` on an existing key updates in place, so both
are embedded as association lists with `assocSet` re-implementing
`Map.set` and `assocDelete` re-implementing `Map.delete`. The
interleaving model follows the JS event loop (spec §5): the whole body
of `readValues` up to returning the fetch promise runs without a
suspension point, so one `readValuesStep` is one atomic step; the
promise continuations attached to the fetch (`.then` storing the cache
entry, `.finally` deregistering the in-flight marker) run when the
fetch settles, modelled by `settleStep`. -/

/-- One entry of `readCache`. -/
structure CacheEntry where
  timestamp : Int
  data : List (List Value)

/-- `Map.get` / `Map.has`: the unique binding of a key (insertion
keeps keys distinct, so the first match is the binding). -/
def assocLookup {α : Type} (l : List (String × α)) (k : String) : Option α :=
  match l.find? (fun p => p.1 == k) with
  | some p => some p.2
  | none => none

/-- `Map.delete`: remove the binding of a key. -/
def assocDelete {α : Type} (l : List (String × α)) (k : String) : List (String × α) :=
  l.filter (fun p => !(p.1 == k))

/-- `Map.set`: update an existing binding in place (keeping its
position in insertion order), else append at the end. -/
def assocSet {α : Type} (l : List (String × α)) (k : String) (v : α) : List (String × α) :=
  match l with
  | [] => [(k, v)]
  | (k', v') :: rest =>
    if k' == k then (k, v) :: rest else (k', v') :: assocSet rest k v

/-- The `while (size > CACHE_MAX_ENTRIES) delete oldest` loop of
`pruneCache`: drop from the front (oldest insertion) until within
capacity. -/
def evictOldest : List (String × CacheEntry) → Nat → List (String × CacheEntry)
  | [], _ => []
  | x :: xs, maxEntries =>
    if (x :: xs).length > maxEntries then evictOldest xs maxEntries else x :: xs

/-- `GoogleSheetsService.pruneCache`: first delete every entry whose
age exceeds the TTL (iterating and deleting over a JS `Map` visits
every entry once, i.e. a filter), then evict oldest entries while over
capacity. -/
def pruneCache (c : List (String × CacheEntry)) (now ttl : Int) (maxEntries : Nat) :
    List (String × CacheEntry) :=
  evictOldest (c.filter (fun p => !(decide (now - p.2.timestamp > ttl)))) maxEntries

/-- The service state the read path touches: the cache map, the
in-flight registry (key to the pending fetch, identified by the running
count of backend fetches issued), the fetch counter, and the
`CACHE_TTL` / `CACHE_MAX_ENTRIES` configuration. -/
structure SvcState where
  cache : List (String × CacheEntry)
  inflight : List (String × Nat)
  fetchCount : Nat
  cacheTtl : Int
  cacheMax : Nat

/-- What a call to `readValues` returns to its caller: cached data, the
identity of an already in-flight fetch it joined, or the identity of
the fresh fetch it started (callers holding the same fetch identity
await the same promise, hence observe the same result or failure). -/
inductive ReadOutcome where
  | cached : List (List Value) → ReadOutcome
  | joined : Nat → ReadOutcome
  | started : Nat → ReadOutcome

/-- The tail of `readValues` past the cache-hit check: on a bypass
(`useCache = false`) invalidate the key and always start a fetch; on a
cached read join an existing in-flight fetch if one is registered, else
start and register a fresh fetch. Starting a fetch increments the
fetch counter: one increment is one backend call. -/
def readValuesFetch (st : SvcState) (cacheKey : String) (useCache : Bool) :
    ReadOutcome × SvcState :=
  if !useCache then
    (.started st.fetchCount,
      { st with cache := assocDelete st.cache cacheKey, fetchCount := st.fetchCount + 1 })
  else
    match assocLookup st.inflight cacheKey with
    | some fid => (.joined fid, st)
    | none =>
      (.started st.fetchCount,
        { st with inflight := assocSet st.inflight cacheKey st.fetchCount,
                  fetchCount := st.fetchCount + 1 })

/-- `GoogleSheetsService.readValues` up to its first suspension point,
as one atomic step (`range` is an `Option` so the `range?.trim()`
guard against `undefined` is visible). A missing or whitespace-only
range throws before the cache or the backend is touched; a fresh
cache hit is returned after re-inserting the entry (marking it
most-recently-used); a stale hit is evicted; then `readValuesFetch`
decides between joining and starting a fetch. -/
def readValuesStep (st : SvcState) (spreadsheetId : String) (range : Option String)
    (useCache : Bool) (now : Int) : Except String (ReadOutcome × SvcState) :=
  match range.map jsTrim with
  | none => Except.error "Range must be a non-empty string"
  | some trimmed =>
    if trimmed = "" then Except.error "Range must be a non-empty string"
    else
      let cacheKey := spreadsheetId ++ ":" ++ trimmed
      match (if useCache then assocLookup st.cache cacheKey else none) with
      | some entry =>
        if now - entry.timestamp ≤ st.cacheTtl then
          Except.ok (.cached entry.data,
            { st with cache := assocSet (assocDelete st.cache cacheKey) cacheKey entry })
        else
          Except.ok (readValuesFetch { st with cache := assocDelete st.cache cacheKey }
            cacheKey useCache)
      | none => Except.ok (readValuesFetch st cacheKey useCache)

/-- The continuations attached to the fetch promise, run when it
settles: on success of a cached fetch, `.then` prunes the cache (with
the timestamp captured at call time) and stores the fresh entry; in
either case `.finally` deregisters the in-flight marker — both only
when the fetch was issued with `useCache`. -/
def settleStep (st : SvcState) (cacheKey : String) (success : Bool)
    (data : List (List Value)) (useCache : Bool) (now : Int) : SvcState :=
  let entry : CacheEntry := { timestamp := now, data := data }
  let st1 :=
    if success && useCache then
      { st with
          cache := assocSet (pruneCache st.cache now st.cacheTtl st.cacheMax) cacheKey entry }
    else st
  if useCache then { st1 with inflight := assocDelete st1.inflight cacheKey } else st1

/-- The state after `readValuesStep` starts and registers a fresh
cached fetch for `key`: the (possibly stale) cache entry for the key is
gone, the in-flight registry maps the key to the new fetch, and the
fetch counter has advanced by exactly one. -/
def inflightStartState (st : SvcState) (key : String) : SvcState :=
  { st with cache := assocDelete st.cache key,
            inflight := assocSet st.inflight key st.fetchCount,
            fetchCount := st.fetchCount + 1 }

/-! ## Row normalization, dedup post-filter, write coordinator -/

/-- The property key a header cell contributes in `normalizeRows`:
`headers[i] ?? Array("col_", i)` — the fallback fires only on
`null`/`undefined`, any other cell is coerced by property assignment
to its string form. -/
def normKey (h : Value) (i : Nat) : String :=
  match h with
  | .null => "col_" ++ toString i
  | .undef => "col_" ++ toString i
  | h' => jsString h'

/-- `GoogleSheetsService.normalizeRows`: empty input or empty headers
normalize to nothing; otherwise each raw row is padded or trimmed to
the header count, position `i` read as `row[i]` when present, else the
empty string. -/
def normalizeRows (headers : List Value) (rawRows : List (List Value)) : List Row :=
  if rawRows.isEmpty || headers.isEmpty then []
  else
    rawRows.map (fun row =>
      (List.range headers.length).map (fun i =>
        (normKey (headers.getD i Value.undef) i, row.getD i (Value.str ""))))

/-- The composite dedup key of a row: the string form of each
`uniqueBy` column's value (`null`/`undefined` read as empty) joined by
the pipe separator. -/
def compoundKey (keys : List Value) (row : Row) : String :=
  let sep := "|"
  String.intercalate sep (keys.map (fun k =>
    match getKV row (jsString k) with
    | .null => ""
    | .undef => ""
    | v => jsString v))

/-- The first-wins scan of `applyUnique`: keep a row when its compound
key has not been seen, remembering the keys kept so far. -/
def dedupGo (f : Row → String) : List Row → List String → List Row
  | [], _ => []
  | r :: rs, seen =>
    if seen.contains (f r) then dedupGo f rs seen
    else r :: dedupGo f rs (f r :: seen)

/-- The key list `applyUnique` derives:
`Array.isArray(uniqueBy) ? uniqueBy : [uniqueBy]`. -/
def uniqueKeys : Value → List Value
  | .arr l => l
  | v => [v]

/-- `GoogleSheetsService.applyUnique`: a falsy `uniqueBy` returns the
rows unchanged; otherwise keep the first row per compound key,
preserving the original order. -/
def applyUnique (rows : List Row) (uniqueBy : Value) : List Row :=
  if !jsTruthy uniqueBy then rows
  else dedupGo (compoundKey (uniqueKeys uniqueBy)) rows []

/-- `GoogleSheetsService.colIdxToA1` (zero-based column index to the
A1 column letters), written with the post-increment unfolded: the JS
loop works on `n + 1` and peels the low base-26 digit each turn. -/
def colIdxToA1Go : Nat → Nat → String
  | 0, _ => ""
  | _ + 1, 0 => ""
  | fuel + 1, n + 1 =>
    colIdxToA1Go fuel (n / 26) ++ String.singleton (Char.ofNat (65 + n % 26))

/-- `colIdxToA1 n` as the source calls it: the loop runs on `n + 1`
and peels at least one base-26 digit per turn, so `n + 1` turns of
fuel always suffice. -/
def colIdxToA1 (n : Nat) : String :=
  colIdxToA1Go (n + 1) (n + 1)

/-- One scheduled write of the batched update. The source encodes the
row in the A1 `range` string (`dataRowIndex + 2`); `rowIndex` records
the same data-row index explicitly so theorems can name the row. -/
structure BatchReq where
  rowIndex : Nat
  range : String
  values : List (List Value)

/-- The header row `updateRows` works from: `values[0] ?? []`. -/
def planHeaders (values : List (List Value)) : List Value :=
  values.headD []

/-- The normalized data rows `updateRows` works from. -/
def planRows (values : List (List Value)) : List Row :=
  normalizeRows (planHeaders values) values.tail

/-- The indexed filter collecting matching row indices:
`rows.map((row, index)).filter(({row}) => predicate(row)).map(({index}))`,
evaluated left to right with the first exception aborting. -/
def matchGo (whereV : Value) : List Row → Nat → Except String (List Nat)
  | [], _ => Except.ok []
  | r :: rs, i =>
    match evalPredicate whereV r with
    | Except.error e => Except.error e
    | Except.ok b =>
      match matchGo whereV rs (i + 1) with
      | Except.error e => Except.error e
      | Except.ok rest => Except.ok (if b then i :: rest else rest)

/-- The matching data-row indices of `updateRows`: a truthy `where`
compiles to the predicate, a falsy one matches every row. -/
def planMatching (values : List (List Value)) (whereV : Value) : Except String (List Nat) :=
  if jsTruthy whereV then matchGo whereV (planRows values) 0
  else Except.ok (List.range (planRows values).length)

/-- The base cells of an existing row laid out along the headers:
`existingRow[h]` with `null`/`undefined` read as the empty string. -/
def baseCells (headers : List Value) (row : Row) : List Value :=
  headers.map (fun h =>
    match getKV row (jsString h) with
    | .null => Value.str ""
    | .undef => Value.str ""
    | v => v)

/-- JS strict equality between a header cell and a string patch key:
only a header cell that is exactly that string matches. -/
def headerMatchesKey (h : Value) (k : String) : Bool :=
  match h with
  | .str s => s == k
  | _ => false

/-- `headers.indexOf(key)` for a string patch key (`indexOf` uses
strict equality). -/
def headerIdx (headers : List Value) (k : String) : Option Nat :=
  headers.findIdx? (fun h => headerMatchesKey h k)

/-- One `Object.entries(data)` step of the patch loop: locate the
key's header column; overwrite the cell and raise the change flag only
when the string representations differ. -/
def patchStep (headers : List Value) (acc : List Value × Bool) (kv : String × Value) :
    List Value × Bool :=
  match headerIdx headers kv.1 with
  | some hi =>
    if jsString (acc.1.getD hi (Value.str "")) == jsString kv.2 then acc
    else (acc.1.set hi kv.2, true)
  | none => acc

/-- The updated row and change flag `updateRows` computes for one
target row. -/
def buildUpdatedRow (headers : List Value) (row : Row) (data : List (String × Value)) :
    List Value × Bool :=
  data.foldl (patchStep headers) (baseCells headers row, false)

/-- The body of the target-row loop of `updateRows` for one row index:
look up the existing row (`if (!existingRow) continue`), build the
updated row, and schedule a batched write — its A1 `range` spanning
row `ri + 2`, columns `A` through the last header column — only when
the change flag is raised. -/
def planReq (sheetName : String) (headers : List Value) (rows : List Row)
    (data : List (String × Value)) (ri : Nat) : Option BatchReq :=
  match rows.get? ri with
  | none => none
  | some existingRow =>
    let ur := buildUpdatedRow headers existingRow data
    if ur.2 then
      some { rowIndex := ri,
             range := sheetName ++ "!A" ++ toString (ri + 2) ++ ":" ++
               colIdxToA1 (headers.length - 1) ++ toString (ri + 2),
             values := [ur.1] }
    else none

/-- The pure planning core of `GoogleSheetsService.updateRows`: given
the freshly read grid, compute the batched write requests the backend
would receive and the `{updated, appended}` result. An empty grid
throws; matching rows are located by the compiled predicate; the
target set is all matches or the first match; a request is scheduled
only when the row's change flag is raised; `updated` is the number of
scheduled requests and nothing is ever appended here. -/
def updateRowsPlan (sheetName : String) (values : List (List Value)) (whereV : Value)
    (data : List (String × Value)) (updateAll : Bool) :
    Except String (List BatchReq × Nat × Nat) :=
  if values.isEmpty then Except.error "Sheet appears empty or unreadable"
  else
    match planMatching values whereV with
    | Except.error e => Except.error e
    | Except.ok matching =>
      let targets := if updateAll then matching else matching.take 1
      let reqs := targets.filterMap
        (planReq sheetName (planHeaders values) (planRows values) data)
      Except.ok (reqs, reqs.length, 0)

/-! ## Association-list (JS `Map`) lemmas -/

theorem assocLookup_delete_self {α : Type} (l : List (String × α)) (k : String) :
    assocLookup (assocDelete l k) k = none := by
  induction l with
  | nil => rfl
  | cons p rest ih =>
    by_cases h : p.1 == k
    · simpa [assocDelete, assocLookup, h] using ih
    · simpa [assocDelete, assocLookup, h] using ih

theorem assocDelete_of_lookup_none {α : Type} (l : List (String × α)) (k : String)
    (h : assocLookup l k = none) : assocDelete l k = l := by
  induction l with
  | nil => rfl
  | cons p rest ih =>
    by_cases hp : p.1 == k
    · simp [assocLookup, List.find?, hp] at h
    · simp only [assocLookup, List.find?, hp] at h
      simp only [assocDelete, List.filter, hp, Bool.not_false]
      have := ih (by simpa [assocLookup] using h)
      simpa [assocDelete] using this

theorem assocSet_of_lookup_none {α : Type} (l : List (String × α)) (k : String) (v : α)
    (h : assocLookup l k = none) : assocSet l k v = l ++ [(k, v)] := by
  induction l with
  | nil => rfl
  | cons p rest ih =>
    by_cases hp : p.1 == k
    · simp [assocLookup, List.find?, hp] at h
    · simp only [assocLookup, List.find?, hp] at h
      have := ih (by simpa [assocLookup] using h)
      simp [assocSet, hp, this]

theorem assocLookup_set_self {α : Type} (l : List (String × α)) (k : String) (v : α) :
    assocLookup (assocSet l k v) k = some v := by
  induction l with
  | nil => simp [assocSet, assocLookup, List.find?]
  | cons p rest ih =>
    by_cases hp : p.1 == k
    · simp [assocSet, hp, assocLookup, List.find?]
    · simpa [assocSet, hp, assocLookup, List.find?] using ih

theorem assocSet_length_le {α : Type} (l : List (String × α)) (k : String) (v : α) :
    (assocSet l k v).length ≤ l.length + 1 := by
  induction l with
  | nil => simp [assocSet]
  | cons p rest ih =>
    by_cases hp : p.1 == k
    · simp [assocSet, hp]
    · simp only [assocSet, hp, Bool.false_eq_true, if_false, List.length_cons]
      simp [assocSet, hp]
      omega

/-! ## Cache eviction lemmas -/

theorem evictOldest_eq_drop (l : List (String × CacheEntry)) (m : Nat) :
    evictOldest l m = l.drop (l.length - m) := by
  induction l with
  | nil => simp [evictOldest]
  | cons x xs ih =>
    show (if (x :: xs).length > m then evictOldest xs m else x :: xs) = _
    by_cases h : (x :: xs).length > m
    · rw [if_pos h, ih]
      have h2 : (x :: xs).length - m = (xs.length - m) + 1 := by
        simp only [List.length_cons]
        simp only [List.length_cons] at h
        omega
      rw [h2]
      rfl
    · rw [if_neg h]
      have h2 : (x :: xs).length - m = 0 := by
        simp only [List.length_cons]
        simp only [List.length_cons] at h
        omega
      rw [h2]
      rfl

theorem evictOldest_length_le (l : List (String × CacheEntry)) (m : Nat) :
    (evictOldest l m).length ≤ m := by
  rw [evictOldest_eq_drop, List.length_drop]
  omega

theorem pruneCache_length_le (c : List (String × CacheEntry)) (now ttl : Int) (m : Nat) :
    (pruneCache c now ttl m).length ≤ m :=
  evictOldest_length_le _ m

/-- CLAIM C4, amended (helper): the cache size after the settle-time
store is bounded by capacity plus one. -/
theorem settle_store_length_le (st : SvcState) (key : String) (d : List (List Value))
    (now : Int) :
    (settleStep st key true d true now).cache.length ≤ st.cacheMax + 1 := by
  simp only [settleStep, Bool.and_self, if_pos]
  refine Nat.le_trans (assocSet_length_le _ _ _) ?_
  have := pruneCache_length_le st.cache now st.cacheTtl st.cacheMax
  omega

/-! ## Claim C2: single-flight coalescing -/

/-- CLAIM C2: with `useCache = true` and no valid cache entry for the
key (absent, or older than the TTL) and nothing in flight, the first
`readValues` call starts fetch number `st0.fetchCount` and registers
it; a second call for the same key, arriving before the fetch settles,
joins exactly that fetch (so both callers await the same promise and
observe the same result or failure) and leaves the state unchanged;
across both calls the fetch counter advances by exactly one (one
backend fetch); and settling the fetch — success or failure — removes
the in-flight registry entry for the key. -/
theorem readValues_single_flight (st0 : SvcState) (sid r : String) (now1 now2 : Int)
    (hr : jsTrim r ≠ "")
    (hcache : ∀ e, assocLookup st0.cache (sid ++ ":" ++ jsTrim r) = some e →
      st0.cacheTtl < now1 - e.timestamp)
    (hinf : assocLookup st0.inflight (sid ++ ":" ++ jsTrim r) = none) :
    readValuesStep st0 sid (some r) true now1 =
      Except.ok (ReadOutcome.started st0.fetchCount,
        inflightStartState st0 (sid ++ ":" ++ jsTrim r)) ∧
    readValuesStep (inflightStartState st0 (sid ++ ":" ++ jsTrim r)) sid (some r) true now2 =
      Except.ok (ReadOutcome.joined st0.fetchCount,
        inflightStartState st0 (sid ++ ":" ++ jsTrim r)) ∧
    (inflightStartState st0 (sid ++ ":" ++ jsTrim r)).fetchCount = st0.fetchCount + 1 ∧
    (∀ success data now3,
      assocLookup (settleStep (inflightStartState st0 (sid ++ ":" ++ jsTrim r))
        (sid ++ ":" ++ jsTrim r) success data true now3).inflight
        (sid ++ ":" ++ jsTrim r) = none) := by
  refine ⟨?_, ?_, rfl, ?_⟩
  · cases h : assocLookup st0.cache (sid ++ ":" ++ jsTrim r) with
    | none =>
      simp only [readValuesStep, Option.map_some', if_neg hr, if_true, h, readValuesFetch,
        Bool.not_true, Bool.false_eq_true, if_false, hinf, inflightStartState,
        assocDelete_of_lookup_none _ _ h]
    | some e =>
      have hage := hcache e h
      simp only [readValuesStep, Option.map_some', if_neg hr, if_true, h,
        if_neg (show ¬(now1 - e.timestamp ≤ st0.cacheTtl) by omega), readValuesFetch,
        Bool.not_true, Bool.false_eq_true, if_false, hinf, inflightStartState]
  · simp only [readValuesStep, Option.map_some', if_neg hr, if_true]
    have hdel : assocLookup (inflightStartState st0 (sid ++ ":" ++ jsTrim r)).cache
        (sid ++ ":" ++ jsTrim r) = none := assocLookup_delete_self _ _
    rw [hdel]
    simp only [readValuesFetch, Bool.not_true, Bool.false_eq_true, if_false]
    have hset : assocLookup (inflightStartState st0 (sid ++ ":" ++ jsTrim r)).inflight
        (sid ++ ":" ++ jsTrim r) = some st0.fetchCount := assocLookup_set_self _ _ _
    rw [hset]
  · intro success data now3
    cases success <;>
      simp only [settleStep, Bool.and_self, Bool.false_and, Bool.true_and,
        Bool.false_eq_true, if_false, if_true, assocLookup_delete_self]

/-- Witness for C2 at a concrete empty service state. -/
theorem readValues_single_flight_witness :
    readValuesStep ⟨[], [], 0, 10000, 200⟩ "s" (some "Sheet1") true 0 =
      Except.ok (ReadOutcome.started 0,
        inflightStartState ⟨[], [], 0, 10000, 200⟩ ("s" ++ ":" ++ jsTrim "Sheet1")) ∧
    readValuesStep (inflightStartState ⟨[], [], 0, 10000, 200⟩ ("s" ++ ":" ++ jsTrim "Sheet1"))
        "s" (some "Sheet1") true 1 =
      Except.ok (ReadOutcome.joined 0,
        inflightStartState ⟨[], [], 0, 10000, 200⟩ ("s" ++ ":" ++ jsTrim "Sheet1")) ∧
    assocLookup (settleStep (inflightStartState ⟨[], [], 0, 10000, 200⟩
        ("s" ++ ":" ++ jsTrim "Sheet1")) ("s" ++ ":" ++ jsTrim "Sheet1") true [] true 0).inflight
      ("s" ++ ":" ++ jsTrim "Sheet1") = none ∧
    assocLookup (settleStep (inflightStartState ⟨[], [], 0, 10000, 200⟩
        ("s" ++ ":" ++ jsTrim "Sheet1")) ("s" ++ ":" ++ jsTrim "Sheet1") false [] true 0).inflight
      ("s" ++ ":" ++ jsTrim "Sheet1") = none := by
  have h := readValues_single_flight ⟨[], [], 0, 10000, 200⟩ "s" "Sheet1" 0 1
    (by decide) (fun e he => by exact absurd he (by simp [assocLookup]))
    (by simp [assocLookup])
  exact ⟨h.1, h.2.1, h.2.2.2 true [] 0, h.2.2.2 false [] 0⟩

/-! ## Claim C9: range validation guard -/

/-- CLAIM C9: for every service state, spreadsheet id, `useCache` flag
and time, a `readValues` call whose range is `undefined`, empty or
whitespace-only throws `Range must be a non-empty string` — the step
produces no outcome and no successor state, so neither the cache nor
a backend fetch is touched. -/
theorem readValues_rejects_blank_range :
    (∀ st sid useCache now,
      readValuesStep st sid none useCache now =
        Except.error "Range must be a non-empty string") ∧
    (∀ st sid useCache now s, jsTrim s = "" →
      readValuesStep st sid (some s) useCache now =
        Except.error "Range must be a non-empty string") := by
  refine ⟨fun st sid useCache now => rfl, fun st sid useCache now s hs => ?_⟩
  simp [readValuesStep, Option.map_some', hs]

/-- Witness for C9 at a concrete missing and a concrete
whitespace-only range. -/
theorem readValues_rejects_blank_range_witness :
    readValuesStep ⟨[], [], 0, 10000, 200⟩ "s" none true 0 =
      Except.error "Range must be a non-empty string" ∧
    readValuesStep ⟨[("k", ⟨0, []⟩)], [], 7, 10000, 200⟩ "s" (some "   ") false 0 =
      Except.error "Range must be a non-empty string" :=
  ⟨readValues_rejects_blank_range.1 _ _ _ _,
   readValues_rejects_blank_range.2 _ _ _ _ "   " (by decide)⟩

/-! ## Claim C4: cache capacity and LRU order -/

/-- CLAIM C4, amended: storing the entry of a successful cached fetch
first prunes expired entries and evicts oldest entries while the cache
is over capacity, and only then inserts, so after the store the cache
holds at most `CACHE_MAX_ENTRIES + 1` entries (not `CACHE_MAX_ENTRIES`:
a store into a cache at exactly capacity evicts nothing and leaves
capacity-plus-one entries); capacity eviction drops exactly the oldest
entries of the expiry-filtered cache; and a cache hit within the TTL
re-inserts the entry at the most-recently-used end. -/
theorem readCache_capacity_lru :
    (∀ st key d now,
      (settleStep st key true d true now).cache.length ≤ st.cacheMax + 1) ∧
    (∀ c now ttl m,
      pruneCache c now ttl m =
        (c.filter (fun p => !(decide (now - p.2.timestamp > ttl)))).drop
          ((c.filter (fun p => !(decide (now - p.2.timestamp > ttl)))).length - m)) ∧
    (∀ st sid r e now, jsTrim r ≠ "" →
      assocLookup st.cache (sid ++ ":" ++ jsTrim r) = some e →
      now - e.timestamp ≤ st.cacheTtl →
      readValuesStep st sid (some r) true now =
        Except.ok (ReadOutcome.cached e.data,
          { st with cache := assocDelete st.cache (sid ++ ":" ++ jsTrim r) ++
              [(sid ++ ":" ++ jsTrim r, e)] })) := by
  refine ⟨settle_store_length_le, ?_, ?_⟩
  · intro c now ttl m
    exact evictOldest_eq_drop _ m
  · intro st sid r e now hr hhit hfresh
    simp only [readValuesStep, Option.map_some', if_neg hr, if_true, hhit, if_pos hfresh]
    rw [assocSet_of_lookup_none _ _ _ (assocLookup_delete_self _ _)]

/-- Witness for C4 (amended) at concrete states: a store into an empty
cache stays within capacity plus one, and a fresh hit moves the entry
to the most-recently-used end. -/
theorem readCache_capacity_lru_witness :
    (settleStep ⟨[], [], 0, 10000, 200⟩ "k" true [] true 5).cache.length ≤
      (⟨[], [], 0, 10000, 200⟩ : SvcState).cacheMax + 1 ∧
    readValuesStep ⟨[("s:R", ⟨0, [[Value.str "x"]]⟩)], [], 3, 10000, 200⟩ "s" (some "R") true 4 =
      Except.ok (ReadOutcome.cached [[Value.str "x"]],
        { (⟨[("s:R", ⟨0, [[Value.str "x"]]⟩)], [], 3, 10000, 200⟩ : SvcState) with
            cache := assocDelete
                (⟨[("s:R", ⟨0, [[Value.str "x"]]⟩)], [], 3, 10000, 200⟩ : SvcState).cache
                ("s" ++ ":" ++ jsTrim "R") ++
              [("s" ++ ":" ++ jsTrim "R", ⟨0, [[Value.str "x"]]⟩)] }) :=
  ⟨readCache_capacity_lru.1 ⟨[], [], 0, 10000, 200⟩ "k" [] 5,
   readCache_capacity_lru.2.2 ⟨[("s:R", ⟨0, [[Value.str "x"]]⟩)], [], 3, 10000, 200⟩
     "s" "R" ⟨0, [[Value.str "x"]]⟩ 4 (by decide) rfl (by decide)⟩

/-- Counterexample to CLAIM C4 as stated: a service at capacity one
with one fresh cached entry settles a successful fetch for a second
key; capacity is enforced before insertion, so nothing is evicted and
the cache ends with two entries — more than `CACHE_MAX_ENTRIES`. -/
theorem readCache_capacity_cx :
    ¬((settleStep ⟨[("a", ⟨0, []⟩)], [("s:r", 0)], 1, 10000, 1⟩ "s:r" true [] true 0).cache.length ≤
      (⟨[("a", ⟨0, []⟩)], [("s:r", 0)], 1, 10000, 1⟩ : SvcState).cacheMax) := by
  decide

/-! ## Claim C1: a bare condition as the whole where-tree -/

/-- Counterexample to CLAIM C1 as stated: the where-tree
`{field: "a", operator: "eq", value: 5}` is a single bare condition the
row `{a: 6}` does not satisfy (its own leaf evaluation is `false`), yet
the compiled predicate returns `true` — `buildPredicate` consults only
the `and`/`or` groups and ignores the top-level condition. -/
theorem predicate_bare_condition_cx :
    evalPredicate (Value.obj [("field", Value.str "a"), ("operator", Value.str "eq"),
        ("value", Value.num 5)]) [("a", Value.num 6)] = Except.ok true ∧
    matchCondition [("a", Value.num 6)]
      (Value.obj [("field", Value.str "a"), ("operator", Value.str "eq"),
        ("value", Value.num 5)]) = Except.ok false :=
  ⟨rfl, rfl⟩

/-- CLAIM C1, amended: compiling a where-tree whose extracted `and`
and `or` groups are both empty — in particular a single bare condition
object, which has neither group — yields the constant-true predicate:
the top-level `field`/`operator`/`value` are ignored. -/
theorem predicate_bare_condition_const_true (payload : Value) (row : Row)
    (ha : andConds payload = []) (ho : orConds payload = []) :
    evalPredicate payload row = Except.ok true := by
  by_cases hobj : (!jsTruthy (whereOf payload) || !typeofObject (whereOf payload)) = true
  · simp only [evalPredicate, hobj, if_true]
  · simp only [evalPredicate, hobj, Bool.false_eq_true, if_false, ha, ho,
      List.length_nil, gt_iff_lt, Nat.lt_irrefl, if_false]
    simp

/-- Witness for C1 (amended) at the bare condition of the
counterexample and an empty row. -/
theorem predicate_bare_condition_const_true_witness :
    evalPredicate (Value.obj [("field", Value.str "a"), ("operator", Value.str "eq"),
      ("value", Value.num 5)]) [] = Except.ok true :=
  predicate_bare_condition_const_true _ _ rfl rfl

/-! ## Claim C5: and/or group combination -/

/-- CLAIM C5: over a truthy object where-tree, the compiled predicate
follows the group combination rule for every row — with both groups
non-empty it is the conjunction of the `and` group OR the disjunction
of the `or` group (each evaluated exactly as the source does, the
`and` group first); with only one group non-empty that group alone
decides; with both groups empty it is `true`. -/
theorem predicate_group_combination (payload : Value) (row : Row)
    (ht : jsTruthy (whereOf payload) = true)
    (hobj : typeofObject (whereOf payload) = true) :
    (andConds payload ≠ [] → orConds payload ≠ [] →
      evalPredicate payload row =
        (match allE (matchCondition row) (andConds payload),
               anyE (matchCondition row) (orConds payload) with
         | Except.error e, _ => Except.error e
         | Except.ok _, Except.error e => Except.error e
         | Except.ok a, Except.ok o => Except.ok (a || o))) ∧
    (andConds payload ≠ [] → orConds payload = [] →
      evalPredicate payload row = allE (matchCondition row) (andConds payload)) ∧
    (andConds payload = [] → orConds payload ≠ [] →
      evalPredicate payload row = anyE (matchCondition row) (orConds payload)) ∧
    (andConds payload = [] → orConds payload = [] →
      evalPredicate payload row = Except.ok true) := by
  have hcond : (!jsTruthy (whereOf payload) || !typeofObject (whereOf payload)) = false := by
    rw [ht, hobj]
    rfl
  refine ⟨fun ha ho => ?_, fun ha ho => ?_, fun ha ho => ?_, fun ha ho => ?_⟩
  · have la : (andConds payload).length > 0 := List.length_pos.mpr ha
    have lo : (orConds payload).length > 0 := List.length_pos.mpr ho
    simp only [evalPredicate, hcond, Bool.false_eq_true, if_false, if_pos la, if_pos lo]
    cases hA : allE (matchCondition row) (andConds payload) with
    | error e => rfl
    | ok a =>
      cases hO : anyE (matchCondition row) (orConds payload) with
      | error e => rfl
      | ok o => simp [la, lo]
  · have la : (andConds payload).length > 0 := List.length_pos.mpr ha
    simp only [evalPredicate, hcond, Bool.false_eq_true, if_false, if_pos la, ho,
      List.length_nil, gt_iff_lt, Nat.lt_irrefl, if_false]
    cases hA : allE (matchCondition row) (andConds payload) with
    | error e => rfl
    | ok a => simp [la]
  · have lo : (orConds payload).length > 0 := List.length_pos.mpr ho
    simp only [evalPredicate, hcond, Bool.false_eq_true, if_false, ha,
      List.length_nil, gt_iff_lt, Nat.lt_irrefl, if_false, if_pos lo]
    cases hO : anyE (matchCondition row) (orConds payload) with
    | error e => rfl
    | ok o => simp
  · simp only [evalPredicate, hcond, Bool.false_eq_true, if_false, ha, ho,
      List.length_nil, gt_iff_lt, Nat.lt_irrefl, if_false]
    simp

/-- Witness for C5 at the spec's own example:
`and = [{age, gte, 18}]`, `or = [{vip, eq, true}]` — the row
`{age: 16, vip: true}` matches and `{age: 16, vip: false}` does not. -/
theorem predicate_group_combination_witness :
    evalPredicate (Value.obj [("and", Value.arr [Value.obj [("field", Value.str "age"),
        ("operator", Value.str "gte"), ("value", Value.num 18)]]),
      ("or", Value.arr [Value.obj [("field", Value.str "vip"),
        ("operator", Value.str "eq"), ("value", Value.bool true)]])])
      [("age", Value.num 16), ("vip", Value.bool true)] =
      (match allE (matchCondition [("age", Value.num 16), ("vip", Value.bool true)])
          (andConds (Value.obj [("and", Value.arr [Value.obj [("field", Value.str "age"),
            ("operator", Value.str "gte"), ("value", Value.num 18)]]),
          ("or", Value.arr [Value.obj [("field", Value.str "vip"),
            ("operator", Value.str "eq"), ("value", Value.bool true)]])])),
        anyE (matchCondition [("age", Value.num 16), ("vip", Value.bool true)])
          (orConds (Value.obj [("and", Value.arr [Value.obj [("field", Value.str "age"),
            ("operator", Value.str "gte"), ("value", Value.num 18)]]),
          ("or", Value.arr [Value.obj [("field", Value.str "vip"),
            ("operator", Value.str "eq"), ("value", Value.bool true)]])])) with
       | Except.error e, _ => Except.error e
       | Except.ok _, Except.error e => Except.error e
       | Except.ok a, Except.ok o => Except.ok (a || o)) ∧
    evalPredicate (Value.obj [("and", Value.arr [Value.obj [("field", Value.str "age"),
        ("operator", Value.str "gte"), ("value", Value.num 18)]]),
      ("or", Value.arr [Value.obj [("field", Value.str "vip"),
        ("operator", Value.str "eq"), ("value", Value.bool true)]])])
      [("age", Value.num 16), ("vip", Value.bool true)] = Except.ok true ∧
    evalPredicate (Value.obj [("and", Value.arr [Value.obj [("field", Value.str "age"),
        ("operator", Value.str "gte"), ("value", Value.num 18)]]),
      ("or", Value.arr [Value.obj [("field", Value.str "vip"),
        ("operator", Value.str "eq"), ("value", Value.bool true)]])])
      [("age", Value.num 16), ("vip", Value.bool false)] = Except.ok false :=
  by
  refine ⟨(predicate_group_combination _ _ ?_ ?_).1 ?_ ?_, ?_, ?_⟩
  · rfl
  · rfl
  · exact fun h => nomatch h
  · exact fun h => nomatch h
  · rfl
  · rfl

/-! ## Claim C10: dedup post-filter -/

theorem dedupGo_sublist (f : Row → String) (rs : List Row) :
    ∀ seen, List.Sublist (dedupGo f rs seen) rs := by
  induction rs with
  | nil => intro seen; exact List.Sublist.refl _
  | cons r rs ih =>
    intro seen
    by_cases h : seen.contains (f r)
    · simpa only [dedupGo, if_pos h] using List.Sublist.cons r (ih seen)
    · simpa only [dedupGo, if_neg h] using List.Sublist.cons₂ r (ih (f r :: seen))

theorem dedupGo_idem (f : Row → String) (rs : List Row) :
    ∀ seen, dedupGo f (dedupGo f rs seen) seen = dedupGo f rs seen := by
  induction rs with
  | nil => intro seen; rfl
  | cons r rs ih =>
    intro seen
    by_cases h : seen.contains (f r)
    · simp only [dedupGo, if_pos h]
      exact ih seen
    · have e1 : dedupGo f (r :: rs) seen = r :: dedupGo f rs (f r :: seen) := by
        simp only [dedupGo, if_neg h]
      rw [e1]
      have e2 : dedupGo f (r :: dedupGo f rs (f r :: seen)) seen =
          r :: dedupGo f (dedupGo f rs (f r :: seen)) (f r :: seen) := by
        simp only [dedupGo, if_neg h]
      rw [e2, ih (f r :: seen)]

/-- CLAIM C10: for every row list and every non-empty `uniqueBy` key
list, the dedup post-filter returns a subsequence of its input (first
occurrence per compound key, original order preserved), and applying
it twice gives the same result as applying it once. -/
theorem applyUnique_sublist_idem (rows : List Row) (u : Value)
    (hne : uniqueKeys u ≠ []) :
    List.Sublist (applyUnique rows u) rows ∧
    applyUnique (applyUnique rows u) u = applyUnique rows u := by
  by_cases ht : jsTruthy u
  · constructor
    · simp only [applyUnique, ht, Bool.not_true, Bool.false_eq_true, if_false]
      exact dedupGo_sublist _ rows []
    · simp only [applyUnique, ht, Bool.not_true, Bool.false_eq_true, if_false]
      exact dedupGo_idem _ rows []
  · simp only [applyUnique, ht]
    simp

/-- Witness for C10 at the spec's dedup example: rows
`[{id:1, name:a}, {id:1, name:b}, {id:2, name:c}]` with
`uniqueBy = "id"`. -/
theorem applyUnique_sublist_idem_witness :
    List.Sublist (applyUnique [[("id", Value.num 1), ("name", Value.str "a")],
        [("id", Value.num 1), ("name", Value.str "b")],
        [("id", Value.num 2), ("name", Value.str "c")]] (Value.str "id"))
      [[("id", Value.num 1), ("name", Value.str "a")],
        [("id", Value.num 1), ("name", Value.str "b")],
        [("id", Value.num 2), ("name", Value.str "c")]] ∧
    applyUnique (applyUnique [[("id", Value.num 1), ("name", Value.str "a")],
        [("id", Value.num 1), ("name", Value.str "b")],
        [("id", Value.num 2), ("name", Value.str "c")]] (Value.str "id")) (Value.str "id") =
      applyUnique [[("id", Value.num 1), ("name", Value.str "a")],
        [("id", Value.num 1), ("name", Value.str "b")],
        [("id", Value.num 2), ("name", Value.str "c")]] (Value.str "id") :=
  applyUnique_sublist_idem _ _ (by simp [uniqueKeys])

/-! ## Claim C3: numeric ordering under coercion -/

theorem isNullish_false_of_toNumber (v : Value) (x : JsNum) (h : toNumber v = some x) :
    isNullish v = false := by
  cases v with
  | num q => rfl
  | str s =>
    by_cases hs : s = ""
    · subst hs
      rw [show toNumber (Value.str "") = none from by decide] at h
      exact Option.noConfusion h
    · simp [isNullish, hs]
  | null => exact Option.noConfusion h
  | undef => exact Option.noConfusion h
  | bool b => exact Option.noConfusion h
  | arr l => exact Option.noConfusion h
  | obj kvs => exact Option.noConfusion h

theorem toDateTime_eq_none_of_not_str (v : Value) (h : isStr v = false) :
    toDateTime v = none := by
  cases v with
  | str s => exact Bool.noConfusion h
  | null => rfl
  | undef => rfl
  | bool b => rfl
  | num q => rfl
  | arr l => rfl
  | obj kvs => rfl

theorem compare_gt_of_number_pair (a b : Value) (x y : JsNum)
    (hpair : coercePair a b = (Scalar.num x, Scalar.num y, "number")) :
    compare a b "gt" = jsNumLt y x := by
  unfold compare
  rw [hpair]
  rfl

/-- CLAIM C3, amended: `compare(a, b, "gt")` is exactly strict numeric
order (with the `Infinity` values `parseFloat` can produce) for every
pair that both coerce to numbers and in which at least one side is not
a string — for such pairs the source's `typeof` dispatch rules the
datetime branch out regardless of the host's `Date` parser. For
string/string pairs the datetime rule is consulted first and can claim
the pair (the counterexample shows `"2050-12-31"` vs `"2050-01-01"`,
both coercing to the number 2050, compared as datetimes with `gt`
true); which further string/string pairs it claims is decided by the
host's implementation-defined `Date` heuristics, not by this
repository's code. Likewise, a pair of non-string values that jointly
coerces to no kind (not both nullish, numbers or booleans; datetime
impossible for non-strings) falls through to string comparison. -/
theorem compare_gt_numeric_order :
    (∀ a b x y, toNumber a = some x → toNumber b = some y →
      (isStr a = false ∨ isStr b = false) →
      (compare a b "gt" = true ↔ jsNumLt y x = true)) ∧
    (∀ a b, isStr a = false → isStr b = false →
      ¬(isNullish a = true ∧ isNullish b = true) →
      (toNumber a = none ∨ toNumber b = none) →
      (toBool a = none ∨ toBool b = none) →
      (coercePair a b).2.2 = "string") := by
  constructor
  · intro a b x y hx hy hs
    have hna := isNullish_false_of_toNumber a x hx
    have hd : toDateTime a = none ∨ toDateTime b = none := by
      rcases hs with h | h
      · exact Or.inl (toDateTime_eq_none_of_not_str a h)
      · exact Or.inr (toDateTime_eq_none_of_not_str b h)
    have hpair : coercePair a b = (Scalar.num x, Scalar.num y, "number") := by
      unfold coercePair
      rw [if_neg (by simp [hna])]
      rcases hd with h | h
      · simp only [h, hx, hy]
      · cases hda : toDateTime a with
        | none => simp only [hda, hx, hy]
        | some l => simp only [hda, h, hx, hy]
    rw [compare_gt_of_number_pair a b x y hpair]
  · intro a b hsa hsb hnn hn hb
    have hda := toDateTime_eq_none_of_not_str a hsa
    have hdb := toDateTime_eq_none_of_not_str b hsb
    unfold coercePair
    rw [if_neg hnn]
    cases hna : toNumber a <;> cases hnb : toNumber b <;>
      cases hba : toBool a <;> cases hbb : toBool b <;>
        simp_all

/-- Counterexample to CLAIM C3 as stated: `"2050-12-31"` and
`"2050-01-01"` both coerce to the number `2050` (so strict numeric
order does not hold between them), yet `gt` is `true`: both are
mandated-format date strings, and the datetime rule wins before the
number rule is tried. -/
theorem compare_gt_numeric_order_cx :
    compare (Value.str "2050-12-31") (Value.str "2050-01-01") "gt" = true ∧
    toNumber (Value.str "2050-12-31") = some (JsNum.fin 2050) ∧
    toNumber (Value.str "2050-01-01") = some (JsNum.fin 2050) := by
  refine ⟨by decide, by decide!, by decide!⟩

/-- Witness for C3 (amended) at a number/numeric-string pair, a
number/`"Infinity"` pair, and a non-string pair with no joint kind. -/
theorem compare_gt_numeric_order_witness :
    compare (Value.num 5) (Value.str "3") "gt" = true ∧
    compare (Value.num 5) (Value.str "Infinity") "gt" = false ∧
    (coercePair (Value.arr []) (Value.num 1)).2.2 = "string" := by
  refine ⟨?_, ?_, ?_⟩
  · exact (compare_gt_numeric_order.1 (Value.num 5) (Value.str "3")
      (JsNum.fin 5) (JsNum.fin 3) rfl (by decide!) (Or.inl rfl)).mpr (by decide!)
  · have hiff := compare_gt_numeric_order.1 (Value.num 5) (Value.str "Infinity")
      (JsNum.fin 5) JsNum.posInf rfl (by decide) (Or.inl rfl)
    cases hc : compare (Value.num 5) (Value.str "Infinity") "gt"
    · rfl
    · exact absurd (hiff.mp hc) (by decide)
  · exact compare_gt_numeric_order.2 (Value.arr []) (Value.num 1)
      rfl rfl (by decide) (Or.inl rfl) (Or.inl rfl)

/-! ## Claim C6: malformed conditions -/

theorem compare_unknown_op_false (a b : Value) (op : String)
    (h1 : op ≠ "eq") (h2 : op ≠ "ne") (h3 : op ≠ "gt") (h4 : op ≠ "gte")
    (h5 : op ≠ "lt") (h6 : op ≠ "lte") :
    compare a b op = false := by
  unfold compare
  simp [h1, h2, h3, h4, h5, h6]

/-- CLAIM C6, amended: malformed conditions evaluate to silent
`false` — a condition missing (or with a falsy) `field`, an
unsupported operator (the relational comparator returns `false` on an
unknown operator), and a `between` whose pair payload is not an array
of length at least two; every operator other than `in`/`not_in` never
raises; and for a well-formed payload `not_in` is the negation of
`in`. However — contrary to the claim as stated — an `in`/`not_in`
condition whose `values` payload is truthy but not an array raises a
`TypeError` instead of returning `false` (see the counterexample). -/
theorem matchCondition_malformed :
    (∀ row c, jsTruthy (getProp c "field") = false →
      matchCondition row c = Except.ok false) ∧
    (∀ row c, effOp c ∉ (["is_null", "is_not_null", "like", "between", "in", "not_in",
        "eq", "ne", "gt", "gte", "lt", "lte"] : List String) →
      matchCondition row c = Except.ok false) ∧
    (∀ row c, effOp c = "between" →
      ((∀ l, betweenPair c ≠ Value.arr l) ∨
        (∃ l, betweenPair c = Value.arr l ∧ l.length < 2)) →
      matchCondition row c = Except.ok false) ∧
    (∀ row c, effOp c ≠ "in" → effOp c ≠ "not_in" →
      ∃ b, matchCondition row c = Except.ok b) ∧
    (∀ row c r, jsTruthy c = true → typeofObject c = true →
      jsTruthy (getProp c "field") = true → effOp c = "not_in" →
      inListE (getKV row (jsString (getProp c "field"))) (inOpts c) = Except.ok r →
      matchCondition row c = Except.ok (!r)) := by
  refine ⟨?_, ?_, ?_, ?_, ?_⟩
  · intro row c hf
    unfold matchCondition
    by_cases h0 : (!jsTruthy c || !typeofObject c) = true
    · rw [if_pos h0]
    · rw [if_neg h0, if_pos (by simp [hf])]
  · intro row c hop
    simp only [List.mem_cons, List.not_mem_nil, or_false, not_or] at hop
    obtain ⟨e1, e2, e3, e4, e5, e6, e7, e8, e9, e10, e11, e12⟩ := hop
    unfold matchCondition
    by_cases h0 : (!jsTruthy c || !typeofObject c) = true
    · rw [if_pos h0]
    · rw [if_neg h0]
      by_cases hf : (!jsTruthy (getProp c "field")) = true
      · rw [if_pos hf]
      · rw [if_neg hf]
        generalize hop : effOp c = o
        rw [hop] at e1 e2 e3 e4 e5 e6 e7 e8 e9 e10 e11 e12
        split <;>
          (simp only [e1, e2, e3, e4, e5, e6]
           rw [compare_unknown_op_false _ _ _ e7 e8 e9 e10 e11 e12])
  · intro row c hop hshape
    unfold matchCondition
    by_cases h0 : (!jsTruthy c || !typeofObject c) = true
    · rw [if_pos h0]
    · rw [if_neg h0]
      by_cases hf : (!jsTruthy (getProp c "field")) = true
      · rw [if_pos hf]
      · rw [if_neg hf]
        simp only [hop]
        cases hbp : betweenPair c with
        | arr l =>
          rcases hshape with hno | ⟨l', hl', hlen⟩
          · exact absurd hbp (hno l)
          · rw [hbp] at hl'
            cases hl'
            simp [Nat.not_le.mpr hlen]
        | null => simp
        | undef => simp
        | bool b => simp
        | num q => simp
        | str s => simp
        | obj kvs => simp
  · intro row c h1 h2
    unfold matchCondition
    by_cases h0 : (!jsTruthy c || !typeofObject c) = true
    · rw [if_pos h0]; exact ⟨false, rfl⟩
    · rw [if_neg h0]
      by_cases hf : (!jsTruthy (getProp c "field")) = true
      · rw [if_pos hf]; exact ⟨false, rfl⟩
      · rw [if_neg hf]
        generalize hop : effOp c = o
        rw [hop] at h1 h2
        split
        all_goals (
          by_cases ho1 : o = "is_null"
          case pos => subst ho1; exact ⟨_, rfl⟩
          all_goals by_cases ho2 : o = "is_not_null"
          case pos => subst ho2; exact ⟨_, rfl⟩
          all_goals by_cases ho3 : o = "like"
          case pos => subst ho3; exact ⟨_, rfl⟩
          all_goals by_cases ho4 : o = "between"
          case pos =>
            subst ho4
            first
              | (split
                 · exact ⟨_, rfl⟩
                 · exact ⟨_, rfl⟩)
              | exact ⟨_, rfl⟩
          all_goals simp only [ho1, ho2, ho3, ho4, h1, h2]
          all_goals exact ⟨_, rfl⟩)
  · intro row c r h0a h0b hf hop hin
    unfold matchCondition
    rw [if_neg (by simp [h0a, h0b]), if_neg (by simp [hf])]
    simp only [hop, hin]

/-- Counterexample to CLAIM C6 as stated: the `in` condition
`{field: "a", operator: "in", values: 5}` has a wrong-shaped (truthy,
non-array) `values` payload, and evaluating it against the row
`{a: 1}` raises `TypeError: options.some is not a function` instead of
returning `false`. -/
theorem matchCondition_malformed_cx :
    matchCondition [("a", Value.num 1)]
      (Value.obj [("field", Value.str "a"), ("operator", Value.str "in"),
        ("values", Value.num 5)]) =
      Except.error "options.some is not a function" := rfl

/-- Witness for C6 (amended) at concrete malformed conditions: a
missing field, an unsupported operator, a wrong-shaped `between`, and
the `not_in`/`in` negation. -/
theorem matchCondition_malformed_witness :
    matchCondition [("a", Value.num 1)] (Value.obj [("operator", Value.str "eq")]) =
      Except.ok false ∧
    matchCondition [("a", Value.num 1)]
      (Value.obj [("field", Value.str "a"), ("operator", Value.str "matches")]) =
      Except.ok false ∧
    matchCondition [("a", Value.num 1)]
      (Value.obj [("field", Value.str "a"), ("operator", Value.str "between"),
        ("values", Value.str "xy")]) = Except.ok false ∧
    matchCondition [("a", Value.num 1)]
      (Value.obj [("field", Value.str "a"), ("operator", Value.str "not_in"),
        ("values", Value.arr [Value.num 1, Value.num 2])]) = Except.ok (!true) := by
  refine ⟨matchCondition_malformed.1 _ _ rfl,
    matchCondition_malformed.2.1 _ _ (by decide),
    matchCondition_malformed.2.2.1 _ _ rfl (Or.inl (fun l h => nomatch h)),
    matchCondition_malformed.2.2.2.2 _ _ true rfl rfl rfl rfl rfl⟩

/-! ## Claims C7 and C8: the write coordinator -/

theorem patch_flag_exists (headers : List Value) (data : List (String × Value)) :
    ∀ a : List Value,
      (data.foldl (patchStep headers) (a, false)).2 = true →
      ∃ kv ∈ data, ∃ hi, headerIdx headers kv.1 = some hi ∧
        jsString (a.getD hi (Value.str "")) ≠ jsString kv.2 := by
  induction data with
  | nil => intro a h; simp at h
  | cons kv rest ih =>
    intro a h
    rw [List.foldl_cons] at h
    cases hidx : headerIdx headers kv.1 with
    | none =>
      rw [show patchStep headers (a, false) kv = (a, false) from by
        simp [patchStep, hidx]] at h
      obtain ⟨kv', hmem, hi, hhi, hne⟩ := ih a h
      exact ⟨kv', List.mem_cons_of_mem _ hmem, hi, hhi, hne⟩
    | some hi =>
      by_cases hstr : (jsString (a.getD hi (Value.str "")) == jsString kv.2) = true
      · rw [show patchStep headers (a, false) kv = (a, false) from by
          simp only [patchStep, hidx]
          rw [if_pos hstr]] at h
        obtain ⟨kv', hmem, hi', hhi, hne⟩ := ih a h
        exact ⟨kv', List.mem_cons_of_mem _ hmem, hi', hhi, hne⟩
      · exact ⟨kv, List.mem_cons_self _ _, hi, hidx, by simpa using hstr⟩

theorem patch_fold_id_of_no_header (headers : List Value) (data : List (String × Value))
    (hnone : ∀ kv ∈ data, headerIdx headers kv.1 = none) :
    ∀ acc : List Value × Bool, data.foldl (patchStep headers) acc = acc := by
  induction data with
  | nil => intro acc; rfl
  | cons kv rest ih =>
    intro acc
    rw [List.foldl_cons,
      show patchStep headers acc kv = acc from by
        simp [patchStep, hnone kv (List.mem_cons_self _ _)]]
    exact ih (fun kv' h => hnone kv' (List.mem_cons_of_mem _ h)) acc

theorem getD_set_ne (l : List Value) (i j : Nat) (v d : Value) (hij : i ≠ j) :
    (l.set i v).getD j d = l.getD j d := by
  induction l generalizing i j with
  | nil => simp
  | cons x xs ih =>
    cases i with
    | zero =>
      cases j with
      | zero => exact absurd rfl hij
      | succ j' => rfl
    | succ i' =>
      cases j with
      | zero => rfl
      | succ j' =>
        simp only [List.set_cons_succ, List.getD_cons_succ]
        exact ih i' j' (fun h => hij (congrArg Nat.succ h))

theorem patch_fold_frame (headers : List Value) (data : List (String × Value)) (i : Nat) :
    ∀ (a : List Value) (fl : Bool),
      (∀ kv ∈ data, headerIdx headers kv.1 ≠ some i) →
      ((data.foldl (patchStep headers) (a, fl)).1).getD i (Value.str "") =
        a.getD i (Value.str "") := by
  induction data with
  | nil => intro a fl _; rfl
  | cons kv rest ih =>
    intro a fl hno
    rw [List.foldl_cons]
    cases hidx : headerIdx headers kv.1 with
    | none =>
      rw [show patchStep headers (a, fl) kv = (a, fl) from by simp [patchStep, hidx]]
      exact ih a fl (fun kv' h => hno kv' (List.mem_cons_of_mem _ h))
    | some hi =>
      have hhi : hi ≠ i := by
        intro h
        exact hno kv (List.mem_cons_self _ _) (h ▸ hidx)
      by_cases hstr : (jsString (a.getD hi (Value.str "")) == jsString kv.2) = true
      · rw [show patchStep headers (a, fl) kv = (a, fl) from by
          simp only [patchStep, hidx]
          rw [if_pos hstr]]
        exact ih a fl (fun kv' h => hno kv' (List.mem_cons_of_mem _ h))
      · rw [show patchStep headers (a, fl) kv = (a.set hi kv.2, true) from by
          simp only [patchStep, hidx]
          rw [if_neg hstr]]
        rw [ih (a.set hi kv.2) true (fun kv' h => hno kv' (List.mem_cons_of_mem _ h))]
        exact getD_set_ne a hi i kv.2 (Value.str "") hhi

theorem planReq_eq_some (sheet : String) (headers : List Value) (rows : List Row)
    (data : List (String × Value)) (ri : Nat) (req : BatchReq)
    (h : planReq sheet headers rows data ri = some req) :
    req.rowIndex = ri ∧ ∃ row, rows.get? ri = some row ∧
      (buildUpdatedRow headers row data).2 = true ∧
      req.values = [(buildUpdatedRow headers row data).1] := by
  unfold planReq at h
  cases hg : rows.get? ri with
  | none => rw [hg] at h; exact Option.noConfusion h
  | some row =>
    simp only [hg] at h
    by_cases hfl : (buildUpdatedRow headers row data).2 = true
    · rw [if_pos hfl] at h
      cases h
      exact ⟨rfl, row, rfl, hfl, rfl⟩
    · rw [if_neg hfl] at h
      exact Option.noConfusion h

theorem planReq_some_of_flag (sheet : String) (headers : List Value) (rows : List Row)
    (data : List (String × Value)) (ri : Nat) (row : Row)
    (hg : rows.get? ri = some row)
    (hfl : (buildUpdatedRow headers row data).2 = true) :
    ∃ req, planReq sheet headers rows data ri = some req ∧ req.rowIndex = ri := by
  unfold planReq
  simp only [hg]
  rw [if_pos hfl]
  exact ⟨_, rfl, rfl⟩

theorem planMatching_empty_grid (whereV : Value) (matching : List Nat)
    (hm : planMatching [] whereV = Except.ok matching) : matching = [] := by
  unfold planMatching at hm
  split at hm
  · simpa [planRows, planHeaders, normalizeRows, matchGo] using hm.symm
  · simpa [planRows, planHeaders, normalizeRows] using hm.symm

theorem updateRowsPlan_eq (sheet : String) (values : List (List Value)) (whereV : Value)
    (data : List (String × Value)) (updateAll : Bool)
    (matching : List Nat) (reqs : List BatchReq) (updated appended : Nat)
    (hm : planMatching values whereV = Except.ok matching)
    (hne : matching ≠ [])
    (hp : updateRowsPlan sheet values whereV data updateAll = Except.ok (reqs, updated, appended)) :
    reqs = (if updateAll then matching else matching.take 1).filterMap
        (planReq sheet (planHeaders values) (planRows values) data) ∧
      updated = reqs.length ∧ appended = 0 := by
  have hvne : values.isEmpty = false := by
    cases values with
    | nil => exact absurd (planMatching_empty_grid whereV matching hm) hne
    | cons v vs => rfl
  unfold updateRowsPlan at hp
  rw [hvne] at hp
  simp only [Bool.false_eq_true, if_false, hm] at hp
  simp only [Except.ok.injEq, Prod.mk.injEq] at hp
  obtain ⟨h1, h2, h3⟩ := hp
  exact ⟨h1.symm, by rw [← h1, ← h2], h3.symm⟩

/-- CLAIM C7: when the grid has at least one matching row,
`updateRows` with `updateAll = false` schedules at most one write and
only for the first matching row; with `updateAll = true` every
scheduled write is a matching row and every matching row whose change
flag is raised is scheduled; every scheduled row's patched cells
differ from the existing row in some patched column's string
representation; and the result is `{updated = number of rows written,
appended = 0}`. -/
theorem updateRows_targets (sheet : String) (values : List (List Value)) (whereV : Value)
    (data : List (String × Value)) (updateAll : Bool)
    (matching : List Nat) (reqs : List BatchReq) (updated appended : Nat)
    (hm : planMatching values whereV = Except.ok matching)
    (hne : matching ≠ [])
    (hp : updateRowsPlan sheet values whereV data updateAll = Except.ok (reqs, updated, appended)) :
    (updateAll = false → reqs.length ≤ 1 ∧
      ∀ req ∈ reqs, matching.head? = some req.rowIndex) ∧
    (updateAll = true → ∀ req ∈ reqs, req.rowIndex ∈ matching) ∧
    (updateAll = true → ∀ i ∈ matching, ∀ row, (planRows values).get? i = some row →
      (buildUpdatedRow (planHeaders values) row data).2 = true →
      ∃ req ∈ reqs, req.rowIndex = i) ∧
    (∀ req ∈ reqs, ∃ row, (planRows values).get? req.rowIndex = some row ∧
      ∃ kv ∈ data, ∃ hi, headerIdx (planHeaders values) kv.1 = some hi ∧
        jsString ((baseCells (planHeaders values) row).getD hi (Value.str "")) ≠
          jsString kv.2) ∧
    updated = reqs.length ∧ appended = 0 := by
  obtain ⟨hreqs, hupd, happ⟩ :=
    updateRowsPlan_eq sheet values whereV data updateAll matching reqs updated appended
      hm hne hp
  refine ⟨?_, ?_, ?_, ?_, hupd, happ⟩
  · intro hall
    subst hall
    rw [hreqs]
    simp only [Bool.false_eq_true, if_false]
    constructor
    · exact Nat.le_trans (List.length_filterMap_le _ _) (List.length_take_le 1 matching)
    · intro req hreq
      obtain ⟨ri, hri, hF⟩ := List.mem_filterMap.mp hreq
      obtain ⟨hidx, -⟩ := planReq_eq_some _ _ _ _ _ _ hF
      cases matching with
      | nil => exact absurd rfl hne
      | cons m ms =>
        have : ri = m := by simpa using hri
        rw [List.head?_cons, hidx, this]
  · intro hall req hreq
    rw [hreqs, hall] at hreq
    simp only [if_true] at hreq
    obtain ⟨ri, hri, hF⟩ := List.mem_filterMap.mp hreq
    obtain ⟨hidx, -⟩ := planReq_eq_some _ _ _ _ _ _ hF
    rw [hidx]
    exact hri
  · intro hall i hi row hg hfl
    obtain ⟨req, hF, hidx⟩ := planReq_some_of_flag sheet _ _ data i row hg hfl
    refine ⟨req, ?_, hidx⟩
    rw [hreqs, hall]
    simp only [if_true]
    exact List.mem_filterMap.mpr ⟨i, hi, hF⟩
  · intro req hreq
    rw [hreqs] at hreq
    obtain ⟨ri, hri, hF⟩ := List.mem_filterMap.mp hreq
    obtain ⟨hidx, row, hg, hfl, -⟩ := planReq_eq_some _ _ _ _ _ _ hF
    rw [hidx]
    exact ⟨row, hg, patch_flag_exists _ data _ hfl⟩

/-- Witness for C7 at a concrete grid with headers `[id, name]`, two
rows matching `id = 1`, and the patch `{name: "z"}`: with
`updateAll = false` only the first matching row (data row 0) is
written, `updated = 1`, nothing appended. -/
theorem updateRows_targets_witness :
    ([⟨0, "S!A2:B2", [[Value.num 1, Value.str "z"]]⟩] : List BatchReq).length ≤ 1 ∧
    (∀ req ∈ ([⟨0, "S!A2:B2", [[Value.num 1, Value.str "z"]]⟩] : List BatchReq),
      ([0, 1] : List Nat).head? = some req.rowIndex) :=
  (updateRows_targets "S"
    [[Value.str "id", Value.str "name"], [Value.num 1, Value.str "a"],
      [Value.num 1, Value.str "b"]]
    (Value.obj [("and", Value.obj [("field", Value.str "id"),
      ("operator", Value.str "eq"), ("value", Value.num 1)])])
    [("name", Value.str "z")] false [0, 1]
    [⟨0, "S!A2:B2", [[Value.num 1, Value.str "z"]]⟩] 1 0
    rfl (by decide) rfl).1 rfl

theorem headerIdx_ne_of_pred_false (headers : List Value) (k : String) (i : Nat)
    (h : Value) (hg : headers.get? i = some h)
    (hp : headerMatchesKey h k = false) :
    headerIdx headers k ≠ some i := by
  intro hidx
  unfold headerIdx at hidx
  rw [List.findIdx?_eq_some_iff_getElem] at hidx
  obtain ⟨hlt, hpred, -⟩ := hidx
  rw [List.get?_eq_getElem?, List.getElem?_eq_getElem hlt, Option.some.injEq] at hg
  rw [hg] at hpred
  rw [hpred] at hp
  exact Bool.noConfusion hp

/-- CLAIM C8: patch keys that do not appear in the header row are
silently ignored — in every written row, a column whose header is not
named by any patch key keeps its existing (null-coalesced) value; and
a patch whose keys all lie outside the header list raises no row's
change flag, so no write request is issued and the result is
`{updated = 0, appended = 0}` even when rows match. -/
theorem updateRows_frame (sheet : String) (values : List (List Value)) (whereV : Value)
    (data : List (String × Value)) (updateAll : Bool)
    (matching : List Nat) (reqs : List BatchReq) (updated appended : Nat)
    (hm : planMatching values whereV = Except.ok matching)
    (hne : matching ≠ [])
    (hp : updateRowsPlan sheet values whereV data updateAll = Except.ok (reqs, updated, appended)) :
    (∀ req ∈ reqs, ∃ row ur, (planRows values).get? req.rowIndex = some row ∧
      req.values = [ur] ∧
      ∀ i h, (planHeaders values).get? i = some h →
        (∀ kv ∈ data, headerMatchesKey h kv.1 = false) →
        ur.getD i (Value.str "") =
          (baseCells (planHeaders values) row).getD i (Value.str "")) ∧
    ((∀ kv ∈ data, headerIdx (planHeaders values) kv.1 = none) →
      reqs = [] ∧ updated = 0 ∧ appended = 0) := by
  obtain ⟨hreqs, hupd, happ⟩ :=
    updateRowsPlan_eq sheet values whereV data updateAll matching reqs updated appended
      hm hne hp
  constructor
  · intro req hreq
    rw [hreqs] at hreq
    obtain ⟨ri, hri, hF⟩ := List.mem_filterMap.mp hreq
    obtain ⟨hidx, row, hg, hfl, hvals⟩ := planReq_eq_some _ _ _ _ _ _ hF
    refine ⟨row, (buildUpdatedRow (planHeaders values) row data).1, hidx ▸ hg, hvals, ?_⟩
    intro i h hgi hnomatch
    unfold buildUpdatedRow
    exact patch_fold_frame (planHeaders values) data i _ false
      (fun kv hkv => headerIdx_ne_of_pred_false _ _ _ _ hgi (hnomatch kv hkv))
  · intro hnone
    have hflag : ∀ ri, planReq sheet (planHeaders values) (planRows values) data ri = none := by
      intro ri
      unfold planReq
      cases hg : (planRows values).get? ri with
      | none => rfl
      | some row =>
        have hbu : buildUpdatedRow (planHeaders values) row data =
            (baseCells (planHeaders values) row, false) :=
          patch_fold_id_of_no_header _ data hnone _
        simp only [hg, hbu]
        rfl
    have hempty : reqs = [] := by
      rw [hreqs]
      cases updateAll <;> simp [hflag]
    refine ⟨hempty, ?_, happ⟩
    rw [hupd, hempty]
    rfl

/-- Witness for C8 at a concrete grid: the patch `{ghost: "z"}` names
no header column, so even with two matching rows nothing is written
and the result is `{updated = 0, appended = 0}`. -/
theorem updateRows_frame_witness :
    updateRowsPlan "S"
      [[Value.str "id", Value.str "name"], [Value.num 1, Value.str "a"],
        [Value.num 1, Value.str "b"]]
      (Value.obj [("and", Value.obj [("field", Value.str "id"),
        ("operator", Value.str "eq"), ("value", Value.num 1)])])
      [("ghost", Value.str "z")] true = Except.ok ([], 0, 0) ∧
    (([] : List BatchReq) = [] ∧ (0 : Nat) = 0 ∧ (0 : Nat) = 0) :=
  ⟨rfl,
   (updateRows_frame "S"
     [[Value.str "id", Value.str "name"], [Value.num 1, Value.str "a"],
       [Value.num 1, Value.str "b"]]
     (Value.obj [("and", Value.obj [("field", Value.str "id"),
       ("operator", Value.str "eq"), ("value", Value.num 1)])])
     [("ghost", Value.str "z")] true [0, 1] [] 0 0
     rfl (by decide) rfl).2 (by decide)⟩

end GsheetBun
